import Mathlib

/-!
Verification of the parallel archive builder in serve_folder (src/zip.rs,
src/handlers.rs, src/state.rs, src/models.rs).  Paths are modelled as lists
of components, the file system as a tree whose directories may fail to be
read, byte contents as lists of naturals, and the shared progress state as
the sequence of records written for one job.
-/

/-- A file system path, as its list of components. -/
abbrev FilePath' := List String

/-- A file system subtree.  A directory whose entry list is `none` models a
directory whose entries cannot be read (read_dir fails). -/
inductive FsEntry where
  | file (name : String)
  | dir (name : String) (entries : Option (List FsEntry))
deriving Repr

/-- Name of a file system entry. -/
def fs_name : FsEntry → String
  | .file n => n
  | .dir n _ => n

/-- Sibling order used by the walker: WalkDir sort_by_file_name. -/
def fs_le (a b : FsEntry) : Prop := fs_name a ≤ fs_name b

instance : DecidableRel fs_le := fun a b => by
  unfold fs_le; infer_instance

mutual
/-- count_files_in_directory, zip.rs lines 16-31: a failed read_dir
contributes 0, files count 1, directories recurse. -/
def count_files_in_directory : FsEntry → Nat
  | .file _ => 0
  | .dir _ none => 0
  | .dir _ (some entries) => count_files_entries entries

/-- Loop body of count_files_in_directory over the entries of one directory. -/
def count_files_entries : List FsEntry → Nat
  | [] => 0
  | .file _ :: rest => 1 + count_files_entries rest
  | .dir n es :: rest => count_files_in_directory (.dir n es) + count_files_entries rest
end

/-- File walk of zip.rs line 168: WalkDir with sort_by_file_name, keeping
regular files only, depth first with siblings in name order.  `pre` is the
path of the directory containing the entry.  Unreadable directories are
skipped, as walkdir drops errored entries via filter_map. -/
def walk_files (pre : FilePath') : FsEntry → List FilePath'
  | .file n => [pre ++ [n]]
  | .dir _ none => []
  | .dir n (some entries) =>
    (List.insertionSort fs_le entries).attach.flatMap
      (fun e => walk_files (pre ++ [n]) e.1)
termination_by e => sizeOf e
decreasing_by
  have hm : e.1 ∈ entries :=
    ((List.perm_insertionSort fs_le entries).mem_iff).mp e.2
  have hs := List.sizeOf_lt_of_mem hm
  simp only [FsEntry.dir.sizeOf_spec, Option.some.sizeOf_spec]
  omega

/-- Grouping loop of collect_files_by_directory, zip.rs lines 163-191: a new
group starts whenever the parent directory of the walked file changes. -/
def collect_loop : List FilePath' → FilePath' → List FilePath' → List (List FilePath') →
    List (List FilePath')
  | [], _, current_group, acc =>
    if current_group.isEmpty then acc else acc ++ [current_group]
  | p :: rest, current_dir, current_group, acc =>
    let parent := p.dropLast
    if current_dir ≠ [] ∧ parent ≠ current_dir then
      let acc' := if current_group.isEmpty then acc else acc ++ [current_group]
      collect_loop rest parent [p] acc'
    else
      collect_loop rest (if current_dir = [] then parent else current_dir)
        (current_group ++ [p]) acc

/-- Comparator of zip.rs line 207: the Rust code sorts with
b.len().cmp(&a.len()).reverse(), which orders by ascending length even
though the adjacent comment says largest first.  Stable sort_by is modelled
by a stable insertion sort. -/
def split_sort_le (a b : List FilePath') : Prop :=
  (compare b.length a.length).swap ≠ Ordering.gt

instance : DecidableRel split_sort_le := fun a b => by
  unfold split_sort_le; infer_instance

/-- Comparator of zip.rs line 225: a.len().cmp(&b.len()), ascending length. -/
def merge_sort_le (a b : List FilePath') : Prop :=
  compare a.length b.length ≠ Ordering.gt

instance : DecidableRel merge_sort_le := fun a b => by
  unfold merge_sort_le; infer_instance

/-- Split loop of balance_file_groups, zip.rs lines 213-220: for each index
in 0..additional_groups_needed.min(groups.len()), split the group at that
index in half by position when it has more than 10 files, pushing the second
half at the end.  The `remaining` argument counts the iterations left. -/
def split_loop : Nat → Nat → List (List FilePath') → List (List FilePath')
  | _, 0, groups => groups
  | i, remaining + 1, groups =>
    match groups[i]? with
    | none => groups
    | some g =>
      if g.length > 10 then
        split_loop (i + 1) remaining
          (groups.set i (g.take (g.length / 2)) ++ [g.drop (g.length / 2)])
      else
        split_loop (i + 1) remaining groups

/-- Merge loop of balance_file_groups, zip.rs lines 228-238: while there are
more groups than the target, remove the two smallest groups in front and
push their concatenation at the end. -/
def merge_loop (target_groups : Nat) (groups : List (List FilePath')) :
    List (List FilePath') :=
  if groups.length > target_groups then
    match groups with
    | g1 :: g2 :: rest => merge_loop target_groups (rest ++ [g1 ++ g2])
    | _ => groups
  else groups
termination_by groups.length
decreasing_by simp

/-- balance_file_groups, zip.rs lines 200-240, with the logical core count
as a parameter (num_cpus::get() in the source). -/
def balance_file_groups (ncpus : Nat) (groups : List (List FilePath')) :
    List (List FilePath') :=
  let target_groups := max (ncpus * 2) 4
  if groups.length < target_groups then
    let sorted := List.insertionSort split_sort_le groups
    let additional_groups_needed := target_groups - sorted.length
    split_loop 0 (min additional_groups_needed sorted.length) sorted
  else if groups.length > target_groups * 2 then
    merge_loop target_groups (List.insertionSort merge_sort_le groups)
  else
    groups

/-- collect_files_by_directory, zip.rs lines 162-197: walk the tree, group
files by runs of equal parent directory, then balance the groups. -/
def collect_files_by_directory (ncpus : Nat) (pre : FilePath') (t : FsEntry) :
    List (List FilePath') :=
  let files := walk_files pre t
  let directory_groups := collect_loop files [] [] []
  balance_file_groups ncpus directory_groups

/-- ZipProgress, models.rs lines 22-28.  The f32 percentage is modelled
exactly by a rational. -/
structure ZipProgress where
  current_file : String
  processed_files : Nat
  total_files : Nat
  percentage : ℚ
deriving DecidableEq, Repr

/-- First record written by create_zip_archive, zip.rs lines 54-59. -/
def starting_progress (total_files : Nat) : ZipProgress :=
  { current_file := "Initializing high-performance compression..."
    processed_files := 0
    total_files := total_files
    percentage := 0 }

/-- Record written by the progress tracking thread, zip.rs lines 129-146:
the sampled counter value with a percentage recomputed from the counts. -/
def tracking_progress (total_files processed : Nat) (cur : String) : ZipProgress :=
  { current_file := cur
    processed_files := processed
    total_files := total_files
    percentage := if total_files > 0 then (processed : ℚ) / (total_files : ℚ) * 100 else 0 }

/-- Record written at the start of merge_zip_segments, zip.rs lines 340-345:
counts are reset to zero and the percentage is fixed at 95. -/
def merging_progress : ZipProgress :=
  { current_file := "Merging ZIP segments..."
    processed_files := 0
    total_files := 0
    percentage := 95 }

/-- Final record written by create_zip_archive, zip.rs lines 105-110. -/
def complete_progress (total_files : Nat) : ZipProgress :=
  { current_file := "ZIP archive complete"
    processed_files := total_files
    total_files := total_files
    percentage := 100 }

/-- Sequence of records written for one job along the successful path of
create_zip_archive: the starting record, the tracking thread samples written
before the merge report, the merge report, the tracking thread samples
written after it, and the final record (zip.rs lines 54-110; the thread can
still flush a sample after merge_zip_segments reports, since the join at
line 102 happens only afterwards). -/
def success_write_sequence (total : Nat) (pre post : List (Nat × String)) :
    List ZipProgress :=
  starting_progress total ::
    ((pre.map fun s => tracking_progress total s.1 s.2) ++
      (merging_progress ::
        ((post.map fun s => tracking_progress total s.1 s.2) ++
          [complete_progress total])))

/-- Constraints the code places on the tracking thread samples of one
successful build: the thread writes only changed values of a monotonically
increasing atomic counter (so written samples strictly increase), the counter
counts at most the walked files (so samples stay at or below the total), the
loop exits only after observing a value at least the total and writes that
value (so the last sample is the total when there are files), with no sample
at all when the total is zero, and samples flushed after the merge report
can only sample the already final counter. -/
def tracker_samples_ok (total : Nat) (pre post : List (Nat × String)) : Prop :=
  List.Chain' (· < ·) ((pre ++ post).map Prod.fst) ∧
  (∀ x ∈ (pre ++ post).map Prod.fst, x ≤ total) ∧
  (0 < total → ((pre ++ post).map Prod.fst).getLast? = some total) ∧
  (total = 0 → pre = [] ∧ post = []) ∧
  (∀ x ∈ post.map Prod.fst, x = total)

/-- Consistency of a record with the formula of zip.rs lines 133-137: the
percentage is recomputed from the two counts, zero when the total is zero. -/
def percentage_consistent (r : ZipProgress) : Prop :=
  r.percentage =
    if r.total_files > 0 then (r.processed_files : ℚ) / (r.total_files : ℚ) * 100 else 0

instance (total : Nat) (pre post : List (Nat × String)) :
    Decidable (tracker_samples_ok total pre post) :=
  inferInstanceAs (Decidable (
    List.Chain' (· < ·) ((pre ++ post).map Prod.fst) ∧
    (∀ x ∈ (pre ++ post).map Prod.fst, x ≤ total) ∧
    (0 < total → ((pre ++ post).map Prod.fst).getLast? = some total) ∧
    (total = 0 → pre = [] ∧ post = []) ∧
    (∀ x ∈ post.map Prod.fst, x = total)))

instance (r : ZipProgress) : Decidable (percentage_consistent r) :=
  inferInstanceAs (Decidable (r.percentage =
    if r.total_files > 0 then (r.processed_files : ℚ) / (r.total_files : ℚ) * 100 else 0))

/-- Records written for one job when segment building fails: only the
starting record and the tracking thread samples; the error propagates at
zip.rs line 91 before merge_zip_segments and before the final update. -/
def failure_write_sequence (total : Nat) (samples : List (Nat × String)) :
    List ZipProgress :=
  starting_progress total :: samples.map fun s => tracking_progress total s.1 s.2

/-- Result propagation of create_zip_archive, zip.rs lines 84-112: an error
from the parallel segment phase is returned as the build result, short
circuiting the merge and the final progress update. -/
def create_zip_archive_outcome (segment_phase : Except String Unit) : Except String Unit :=
  match segment_phase with
  | .error e => .error e
  | .ok _ => .ok ()

/-- Outcome of handle_download_folder, handlers.rs lines 231-242: a build
error is turned into a rejection and no archive bytes are delivered. -/
inductive DownloadOutcome where
  | rejected
  | delivered
deriving DecidableEq, Repr

/-- handle_download_folder on the build result, handlers.rs lines 231-242. -/
def handle_download_folder_outcome (build : Except String Unit) : DownloadOutcome :=
  match build with
  | .error _ => .rejected
  | .ok _ => .delivered

/-- Exit behaviour of the progress tracking loop of start_progress_tracking,
zip.rs lines 128-157: at tick t the loop samples counter t and exits when
the sample has reached the total, otherwise it sleeps and loops.  The fuel
argument bounds how many iterations we observe; the result is the exit tick
when the loop exits within the observed iterations. -/
def tracker_loop_run (fuel : Nat) (counter : Nat → Nat) (total : Nat) (t : Nat) :
    Option Nat :=
  match fuel with
  | 0 => none
  | fuel + 1 => if total ≤ counter t then some t else tracker_loop_run fuel counter total (t + 1)

/-- The successful path of create_zip_archive returns only after joining the
tracking thread (zip.rs lines 101-102), hence only if the tracking loop
exits at some tick. -/
def create_zip_archive_returns (counter : Nat → Nat) (total : Nat) : Prop :=
  ∃ fuel t, (tracker_loop_run fuel counter total t).isSome

/-- Order of the observable steps on the successful path of
create_zip_archive, zip.rs lines 46-112, in source order: initial report
(54), tracker thread spawn (69), grouping (78), parallel segment build (84),
the report at the start of merge_zip_segments (340), the merge itself (357),
the join of the tracker thread (102), and the final report (105). -/
inductive BuildStep where
  | report_start
  | spawn_tracker_thread
  | collect_groups
  | build_segments
  | report_merging
  | merge_segments_step
  | join_tracker_thread
  | report_complete
deriving DecidableEq, Repr

/-- The steps of the successful path of create_zip_archive in the order the
source performs them. -/
def create_zip_archive_steps : List BuildStep :=
  [.report_start, .spawn_tracker_thread, .collect_groups, .build_segments,
    .report_merging, .merge_segments_step, .join_tracker_thread, .report_complete]

/-- An entry of a zip archive: a directory placeholder or a file with its
byte content (bytes as naturals). -/
inductive ZipEntry where
  | directory_entry (path : FilePath')
  | file_entry (path : FilePath') (data : List Nat)
deriving DecidableEq, Repr

/-- Component wise removal of a leading base path, mirroring
Path::strip_prefix: some remainder when base leads p, none otherwise. -/
def remove_base : FilePath' → FilePath' → Option FilePath'
  | [], p => some p
  | _, [] => none
  | r :: rs, x :: xs => if r = x then remove_base rs xs else none

/-- Relative path used for zip entry names, zip.rs lines 276-279:
strip_prefix of the build root, falling back to the full path. -/
def rel_path (root p : FilePath') : FilePath' :=
  (remove_base root p).getD p

/-- Chunked copy loop of zip.rs lines 307-314 and 375-379: read into a
bounded buffer and write the bytes read, until a read returns zero bytes. -/
def copy_in_chunks (buf_size : Nat) (data : List Nat) : List Nat :=
  if buf_size = 0 ∨ data = [] then []
  else data.take buf_size ++ copy_in_chunks buf_size (data.drop buf_size)
termination_by data.length
decreasing_by
  rename_i h
  simp only [not_or] at h
  have : data.length ≠ 0 := fun hl => h.2 (List.eq_nil_of_length_eq_zero hl)
  simp [List.length_drop]
  omega

/-- Entries one worker writes into its segment for one file group, zip.rs
lines 274-318: per file, a directory placeholder for its parent when the
relative parent is nonempty, then the file entry whose bytes are streamed
through the 64 KiB copy loop. -/
def write_group_segment (root : FilePath') (contents : FilePath' → List Nat)
    (group : List FilePath') : List ZipEntry :=
  group.flatMap fun fp =>
    (if rel_path root fp.dropLast ≠ [] then
        [ZipEntry.directory_entry (rel_path root fp.dropLast)]
      else []) ++
    [ZipEntry.file_entry (rel_path root fp) (copy_in_chunks 65536 (contents fp))]

/-- Entry list of the final archive produced by merge_zip_segments, zip.rs
lines 357-384: for each segment in order, every non directory entry is
restreamed through the 1 MiB copy loop under its original name; directory
entries are skipped. -/
def merge_zip_segments_entries (segments : List (List ZipEntry)) : List ZipEntry :=
  segments.flatMap fun seg =>
    seg.filterMap fun e =>
      match e with
      | .directory_entry _ => none
      | .file_entry n d => some (.file_entry n (copy_in_chunks 1048576 d))

/-- Temporary segment file name, zip.rs line 267:
format segment_{fastrand::u64(..)}.zip, the random draw being a 64 bit
value. -/
def segment_file_name (id : Nat) : String :=
  "segment_" ++ Nat.repr (id % 2 ^ 64) ++ ".zip"

/-- Decimal digits of a natural number, most significant first, as the
characters Nat.repr produces. -/
def dec_digits (n : Nat) : List Char :=
  if _h : n < 10 then [Nat.digitChar n]
  else dec_digits (n / 10) ++ [Nat.digitChar (n % 10)]
decreasing_by exact Nat.div_lt_self (by omega) (by omega)

/-- Numeric value of a decimal digit string, the left inverse used to show
Nat.repr is injective. -/
def dec_val (l : List Char) : Nat :=
  l.foldl (fun a c => a * 10 + (c.toNat - 48)) 0

theorem collect_loop_flatten (l : List FilePath') :
    ∀ (cd : FilePath') (cg : List FilePath') (acc : List (List FilePath')),
      (collect_loop l cd cg acc).flatten = acc.flatten ++ cg ++ l := by
  induction l with
  | nil =>
    intro cd cg acc
    by_cases h : cg.isEmpty
    · simp [collect_loop, h, List.isEmpty_iff.mp h]
    · simp [collect_loop, h]
  | cons p rest ih =>
    intro cd cg acc
    simp only [collect_loop]
    split
    · by_cases h2 : cg.isEmpty
      · rw [ih]; simp [List.isEmpty_iff.mp h2, h2]
      · rw [ih]; simp [h2]
    · rw [ih]; simp

theorem set_split_flatten_perm (groups : List (List FilePath')) (i : Nat) (g : List FilePath')
    (hg : groups[i]? = some g) (k : Nat) :
    ((groups.set i (g.take k) ++ [g.drop k]).flatten).Perm groups.flatten := by
  have hi : i < groups.length := by
    by_contra hge
    rw [List.getElem?_eq_none (by omega)] at hg
    exact Option.noConfusion hg
  have hgi : groups[i] = g := by
    have := List.getElem?_eq_getElem hi
    rw [hg] at this
    exact (Option.some.injEq _ _).mp this.symm
  have hsplit : groups = groups.take i ++ g :: groups.drop (i + 1) := by
    conv_lhs => rw [← List.take_append_drop i groups]
    rw [← List.getElem_cons_drop groups i hi, hgi]
  rw [List.set_eq_take_append_cons_drop, if_pos hi]
  conv_rhs => rw [hsplit]
  simp only [List.flatten_append, List.flatten_cons, List.flatten_nil, List.append_assoc,
    List.append_nil]
  refine List.Perm.append_left _ ?_
  have h2 : (g.take k ++ ((groups.drop (i + 1)).flatten ++ g.drop k)).Perm
      (g.take k ++ (g.drop k ++ (groups.drop (i + 1)).flatten)) :=
    List.Perm.append_left _ List.perm_append_comm
  refine h2.trans ?_
  rw [← List.append_assoc, List.take_append_drop]

theorem split_loop_flatten_perm :
    ∀ (remaining i : Nat) (groups : List (List FilePath')),
      ((split_loop i remaining groups).flatten).Perm groups.flatten := by
  intro remaining
  induction remaining with
  | zero => intro i groups; simp [split_loop]
  | succ r ih =>
    intro i groups
    simp only [split_loop]
    cases hg : groups[i]? with
    | none => simp
    | some g =>
      by_cases hlen : g.length > 10
      · simp only [hlen, if_true]
        exact (ih _ _).trans (set_split_flatten_perm groups i g hg _)
      · simp only [hlen, if_false]
        exact ih _ _

theorem merge_loop_flatten_perm (target_groups : Nat) (groups : List (List FilePath')) :
    ((merge_loop target_groups groups).flatten).Perm groups.flatten := by
  induction groups using merge_loop.induct target_groups with
  | case1 g1 g2 rest h ih =>
    rw [merge_loop.eq_def, if_pos h]
    refine ih.trans ?_
    simp only [List.flatten_append, List.flatten_cons, List.flatten_nil, List.append_nil]
    refine List.perm_append_comm.trans ?_
    simp [List.append_assoc]
  | case2 x h hno =>
    rcases x with _ | ⟨a, _ | ⟨b, l⟩⟩
    · rw [merge_loop.eq_def, if_pos h]
    · rw [merge_loop.eq_def, if_pos h]
    · exact absurd rfl (hno a b l)
  | case3 x h =>
    rw [merge_loop.eq_def, if_neg h]

theorem balance_flatten_perm (ncpus : Nat) (groups : List (List FilePath')) :
    ((balance_file_groups ncpus groups).flatten).Perm groups.flatten := by
  unfold balance_file_groups
  dsimp only
  split
  · exact (split_loop_flatten_perm _ _ _).trans
      (List.perm_insertionSort split_sort_le groups).flatten
  · split
    · exact (merge_loop_flatten_perm _ _).trans
        (List.perm_insertionSort merge_sort_le groups).flatten
    · exact List.Perm.refl _

/-- Claim C1: the groups produced by collecting files by directory and then
balancing partition the walked file list exactly: the concatenation of all
groups is a permutation of the file list of the walk, so each walked file
occurrence lands in exactly one group, with no omissions and no
duplicates. -/
theorem collect_balance_partitions_walker_files (ncpus : Nat) (pre : FilePath')
    (t : FsEntry) :
    ((collect_files_by_directory ncpus pre t).flatten).Perm (walk_files pre t) := by
  unfold collect_files_by_directory
  refine (balance_flatten_perm _ _).trans ?_
  rw [collect_loop_flatten]
  simp

/-- Claim C4 (code bug): at 2 logical cores the target is 4 groups, the input
has 3 groups of sizes 30, 5 and 5, and a largest-first splitting would halve
the 30-file group to approach the target.  The code instead sorts the groups
smallest first (the comparator reverses the descending comparison a second
time, contradicting the adjacent comment) and only examines the smallest
group, which is below the 10-file threshold, so no group is split and the
largest group survives intact. -/
theorem balance_leaves_largest_group_unsplit :
    balance_file_groups 2
      [List.replicate 30 ["a"], List.replicate 5 ["b"], List.replicate 5 ["c"]] =
      [List.replicate 5 ["b"], List.replicate 5 ["c"], List.replicate 30 ["a"]] := by
  decide

/-- Claim C10: for a directory whose entries cannot be read (and likewise a
nonexistent path, whose read_dir also fails), count_files_in_directory
returns 0; its return type carries no error, so the failure is silently
swallowed. -/
theorem count_files_unreadable_dir_zero (name : String) :
    count_files_in_directory (FsEntry.dir name none) = 0 := rfl

theorem tracker_samples_ok_example : tracker_samples_ok 2 [(1, "a"), (2, "b")] [] := by
  refine ⟨?_, ?_, ?_, ?_, ?_⟩
  · norm_num [List.chain'_cons]
  · decide
  · intro _; rfl
  · intro h; exact absurd h (by decide)
  · decide

/-- Claim C2, amended: along a successful build, the written processed
counts are monotonically non-decreasing once the merge phase marker (which
resets both counts to zero) is excluded, and the last write is the complete
record, whose processed count equals the total. -/
theorem processed_counts_monotone_outside_merge_marker (total : Nat)
    (pre post : List (Nat × String)) (h : tracker_samples_ok total pre post) :
    List.Chain' (· ≤ ·)
      ((starting_progress total ::
        ((pre.map fun s => tracking_progress total s.1 s.2) ++
          ((post.map fun s => tracking_progress total s.1 s.2) ++
            [complete_progress total]))).map (fun r => r.processed_files)) ∧
    (success_write_sequence total pre post).getLast? = some (complete_progress total) := by
  obtain ⟨hchain, hle, -, -, hpost⟩ := h
  constructor
  · rw [List.chain'_iff_pairwise]
    have hmap : ∀ l : List (Nat × String),
        (l.map fun s => tracking_progress total s.1 s.2).map (fun r => r.processed_files) =
          l.map Prod.fst := by
      intro l; simp [tracking_progress]
    simp only [List.map_cons, List.map_append, hmap, List.map_nil, starting_progress,
      complete_progress]
    rw [List.pairwise_cons]
    constructor
    · intro b _; exact Nat.zero_le b
    · have hpair : List.Pairwise (· < ·) ((pre ++ post).map Prod.fst) := by
        rw [← List.chain'_iff_pairwise]; exact hchain
      rw [List.map_append] at hpair hle
      rw [List.pairwise_append]
      refine ⟨?_, ?_, ?_⟩
      · exact ((hpair.sublist (List.sublist_append_left _ _)).imp Nat.le_of_lt)
      · rw [List.pairwise_append]
        refine ⟨?_, List.pairwise_singleton _ _, ?_⟩
        · refine List.pairwise_of_forall_mem_list ?_
          intro a ha b hb
          rw [hpost a ha, hpost b hb]
        · intro a ha b hb
          rw [List.mem_singleton] at hb
          rw [hpost a ha, hb]
      · intro a ha b hb
        have haT : a ≤ total := hle a (List.mem_append.mpr (Or.inl ha))
        rw [List.mem_append, List.mem_singleton] at hb
        obtain hb | hb := hb
        · rw [hpost b hb]; exact haT
        · rw [hb]; exact haT
  · have hrw : success_write_sequence total pre post =
        (starting_progress total ::
          ((pre.map fun s => tracking_progress total s.1 s.2) ++
            (merging_progress :: (post.map fun s => tracking_progress total s.1 s.2)))) ++
          [complete_progress total] := by
      simp [success_write_sequence]
    rw [hrw, List.getLast?_concat]

theorem processed_counts_monotone_outside_merge_marker_witness :
    tracker_samples_ok 2 [(1, "a"), (2, "b")] [] ∧
    (List.Chain' (· ≤ ·)
      ((starting_progress 2 ::
        ((([(1, "a"), (2, "b")] : List (Nat × String)).map
            (fun s => tracking_progress 2 s.1 s.2)) ++
          ((([] : List (Nat × String)).map (fun s => tracking_progress 2 s.1 s.2)) ++
            [complete_progress 2]))).map (fun r => r.processed_files)) ∧
    (success_write_sequence 2 [(1, "a"), (2, "b")] []).getLast? =
      some (complete_progress 2)) :=
  ⟨tracker_samples_ok_example,
    processed_counts_monotone_outside_merge_marker 2 [(1, "a"), (2, "b")] []
      tracker_samples_ok_example⟩

/-- Claim C2, counterexample: in an admissible successful build with two
files, the written processed counts are 0, 1, 2, 0, 2 because the merge
phase report resets the count to zero, so the full written sequence is not
monotonically non-decreasing. -/
theorem processed_counts_not_monotone_counterexample :
    tracker_samples_ok 2 [(1, "a"), (2, "b")] [] ∧
    ¬ List.Chain' (· ≤ ·)
        ((success_write_sequence 2 [(1, "a"), (2, "b")] []).map
          fun r => r.processed_files) := by
  refine ⟨tracker_samples_ok_example, ?_⟩
  have hmap : (success_write_sequence 2 [(1, "a"), (2, "b")] []).map
      (fun r => r.processed_files) = [0, 1, 2, 0, 2] := rfl
  rw [hmap]
  norm_num [List.chain'_cons]

/-- Claim C6, amended: every record a poller can observe during a
successful build has processed count at most its total count, and every
record except the merge phase marker (fixed 95 percent with both counts
zero) and, for an empty build, the terminal complete record, has its
percentage recomputed from its two counts. -/
theorem poll_records_bounded_and_consistent (total : Nat) (pre post : List (Nat × String))
    (h : tracker_samples_ok total pre post) :
    ∀ r ∈ success_write_sequence total pre post,
      r.processed_files ≤ r.total_files ∧
      (r = merging_progress ∨ (total = 0 ∧ r = complete_progress total) ∨
        percentage_consistent r) := by
  obtain ⟨-, hle, -, -, -⟩ := h
  intro r hr
  simp only [success_write_sequence, List.mem_cons, List.mem_append, List.mem_map,
    List.mem_singleton, List.not_mem_nil, or_false] at hr
  obtain rfl | ⟨s, hs, rfl⟩ | rfl | ⟨s, hs, rfl⟩ | rfl := hr
  · refine ⟨Nat.zero_le _, Or.inr (Or.inr ?_)⟩
    simp only [percentage_consistent, starting_progress]
    split <;> simp
  · refine ⟨?_, Or.inr (Or.inr ?_)⟩
    · have hx : s.1 ∈ (pre ++ post).map Prod.fst :=
        List.mem_map_of_mem Prod.fst (List.mem_append_left _ hs)
      simpa [tracking_progress] using hle _ hx
    · simp [percentage_consistent, tracking_progress]
  · exact ⟨Nat.le_refl _, Or.inl rfl⟩
  · refine ⟨?_, Or.inr (Or.inr ?_)⟩
    · have hx : s.1 ∈ (pre ++ post).map Prod.fst :=
        List.mem_map_of_mem Prod.fst (List.mem_append_right _ hs)
      simpa [tracking_progress] using hle _ hx
    · simp [percentage_consistent, tracking_progress]
  · refine ⟨Nat.le_refl _, ?_⟩
    rcases Nat.eq_zero_or_pos total with h0 | hpos
    · exact Or.inr (Or.inl ⟨h0, rfl⟩)
    · refine Or.inr (Or.inr ?_)
      simp only [percentage_consistent, complete_progress, if_pos hpos]
      rw [div_self (Nat.cast_ne_zero.mpr (Nat.pos_iff_ne_zero.mp hpos))]
      norm_num

theorem poll_records_bounded_and_consistent_witness :
    tracker_samples_ok 2 [(1, "a"), (2, "b")] [] ∧
    ∀ r ∈ success_write_sequence 2 [(1, "a"), (2, "b")] [],
      r.processed_files ≤ r.total_files ∧
      (r = merging_progress ∨ (2 = 0 ∧ r = complete_progress 2) ∨
        percentage_consistent r) :=
  ⟨tracker_samples_ok_example,
    poll_records_bounded_and_consistent 2 [(1, "a"), (2, "b")] []
      tracker_samples_ok_example⟩

/-- Claim C6, counterexample: in an admissible successful build with two
files, a poller during the merge phase observes the merge marker record,
whose percentage of 95 is not the value recomputed from its counts (both
zero, for which the recomputation of the code yields 0). -/
theorem merging_marker_inconsistent_counterexample :
    tracker_samples_ok 2 [(1, "a"), (2, "b")] [] ∧
    merging_progress ∈ success_write_sequence 2 [(1, "a"), (2, "b")] [] ∧
    ¬ percentage_consistent merging_progress := by
  refine ⟨tracker_samples_ok_example, ?_, ?_⟩
  · simp [success_write_sequence]
  · simp [percentage_consistent, merging_progress]

theorem tracker_loop_run_exits (counter : Nat → Nat) (total : Nat) :
    ∀ (fuel t0 d : Nat), d < fuel → total ≤ counter (t0 + d) →
      (tracker_loop_run fuel counter total t0).isSome := by
  intro fuel
  induction fuel with
  | zero => intro t0 d hd _; omega
  | succ f ih =>
    intro t0 d hd hc
    rw [tracker_loop_run]
    by_cases h : total ≤ counter t0
    · simp [h]
    · rw [if_neg h]
      cases d with
      | zero => simp at hc; exact absurd hc h
      | succ d' =>
        refine ih (t0 + 1) d' (by omega) ?_
        have : t0 + (d' + 1) = t0 + 1 + d' := by omega
        rwa [this] at hc

/-- Claim C3, counterexample: on the successful path of create_zip_archive
the report at the start of merge_zip_segments is issued before the tracking
thread is joined, so the orchestrator does not wait for the loop to
terminate before the merge phase report. -/
theorem join_after_merge_report_counterexample :
    ¬ (List.indexOf BuildStep.join_tracker_thread create_zip_archive_steps <
        List.indexOf BuildStep.report_merging create_zip_archive_steps) := by
  decide

/-- Claim C3, amended: the tracking loop terminates once the sampled counter
reaches the total (it exits within t + 1 iterations when the counter is at
the total at tick t), and the orchestrator joins the loop after the merge
phase report but before the final completion report. -/
theorem tracker_exit_and_join_before_completion (counter : Nat → Nat) (total t : Nat)
    (h : total ≤ counter t) :
    (tracker_loop_run (t + 1) counter total 0).isSome ∧
    List.indexOf BuildStep.report_merging create_zip_archive_steps <
      List.indexOf BuildStep.join_tracker_thread create_zip_archive_steps ∧
    List.indexOf BuildStep.join_tracker_thread create_zip_archive_steps <
      List.indexOf BuildStep.report_complete create_zip_archive_steps := by
  refine ⟨tracker_loop_run_exits counter total (t + 1) 0 t (by omega) (by simpa using h),
    by decide, by decide⟩

theorem tracker_exit_and_join_before_completion_witness :
    3 ≤ (fun _ => 5 : Nat → Nat) 0 ∧
    ((tracker_loop_run (0 + 1) (fun _ => 5) 3 0).isSome ∧
      List.indexOf BuildStep.report_merging create_zip_archive_steps <
        List.indexOf BuildStep.join_tracker_thread create_zip_archive_steps ∧
      List.indexOf BuildStep.join_tracker_thread create_zip_archive_steps <
        List.indexOf BuildStep.report_complete create_zip_archive_steps) :=
  ⟨by decide, tracker_exit_and_join_before_completion (fun _ => 5) 3 0 (by decide)⟩

/-- Claim C9: if the shared counter never reaches the total fixed at job
start, the tracking loop never exits no matter how long it runs, and since
the successful path of create_zip_archive joins that thread before
returning, the call never returns. -/
theorem tracker_starvation_blocks_create (counter : Nat → Nat) (total : Nat)
    (h : ∀ t, counter t < total) :
    (∀ fuel t, tracker_loop_run fuel counter total t = none) ∧
    ¬ create_zip_archive_returns counter total := by
  have hrun : ∀ fuel t, tracker_loop_run fuel counter total t = none := by
    intro fuel
    induction fuel with
    | zero => intro t; rfl
    | succ f ih =>
      intro t
      rw [tracker_loop_run, if_neg (Nat.not_le.mpr (h t))]
      exact ih (t + 1)
  refine ⟨hrun, ?_⟩
  rintro ⟨fuel, t, hsome⟩
  rw [hrun fuel t] at hsome
  simp at hsome

theorem tracker_starvation_blocks_create_witness :
    (∀ t, (fun _ => 0 : Nat → Nat) t < 1) ∧
    ((∀ fuel t, tracker_loop_run fuel (fun _ => 0) 1 t = none) ∧
      ¬ create_zip_archive_returns (fun _ => 0) 1) :=
  ⟨fun _ => Nat.one_pos, tracker_starvation_blocks_create (fun _ => 0) 1 (fun _ => Nat.one_pos)⟩

/-- Claim C5: when segment building fails with an I/O error, the build
result is the error (the parallel phase aborts before the merge), the
download handler rejects instead of delivering an archive, and no record
written for the job reaches the complete state: every written record has
processed count strictly below the total and percentage strictly below
100, and the complete record is never written. -/
theorem segment_error_aborts_build (total : Nat) (samples : List (Nat × String)) (e : String)
    (h1 : 0 < total) (h2 : ∀ s ∈ samples, s.1 < total) :
    handle_download_folder_outcome (create_zip_archive_outcome (Except.error e)) =
      DownloadOutcome.rejected ∧
    (∀ r ∈ failure_write_sequence total samples,
      r.processed_files < r.total_files ∧ r.percentage < 100) ∧
    complete_progress total ∉ failure_write_sequence total samples := by
  have hall : ∀ r ∈ failure_write_sequence total samples,
      r.processed_files < r.total_files ∧ r.percentage < 100 := by
    intro r hr
    simp only [failure_write_sequence, List.mem_cons, List.mem_map] at hr
    obtain rfl | ⟨s, hs, rfl⟩ := hr
    · exact ⟨by simpa [starting_progress] using h1, by norm_num [starting_progress]⟩
    · refine ⟨by simpa [tracking_progress] using h2 s hs, ?_⟩
      have hlt : s.1 < total := h2 s hs
      simp only [tracking_progress, if_pos h1]
      have htpos : (0 : ℚ) < total := by exact_mod_cast h1
      have hdiv : (s.1 : ℚ) / total < 1 := (div_lt_one htpos).mpr (by exact_mod_cast hlt)
      nlinarith
  refine ⟨rfl, hall, ?_⟩
  intro hmem
  have := (hall _ hmem).1
  simp [complete_progress] at this

theorem segment_error_aborts_build_witness :
    handle_download_folder_outcome (create_zip_archive_outcome (Except.error "disk full")) =
      DownloadOutcome.rejected ∧
    (∀ r ∈ failure_write_sequence 1 [],
      r.processed_files < r.total_files ∧ r.percentage < 100) ∧
    complete_progress 1 ∉ failure_write_sequence 1 [] :=
  segment_error_aborts_build 1 [] "disk full" Nat.one_pos (by simp)

theorem copy_in_chunks_eq_self (buf_size : Nat) (hb : 0 < buf_size) (data : List Nat) :
    copy_in_chunks buf_size data = data := by
  induction data using copy_in_chunks.induct buf_size with
  | case1 data h =>
    rw [copy_in_chunks, if_pos h]
    obtain h | h := h
    · omega
    · rw [h]
  | case2 data h ih =>
    rw [copy_in_chunks, if_neg h]
    rw [ih, List.take_append_drop]

theorem segment_filterMap (root : FilePath') (contents : FilePath' → List Nat)
    (group : List FilePath') :
    (write_group_segment root contents group).filterMap (fun e =>
      match e with
      | .directory_entry _ => none
      | .file_entry n d => some (ZipEntry.file_entry n (copy_in_chunks 1048576 d))) =
      group.map fun fp => ZipEntry.file_entry (rel_path root fp) (contents fp) := by
  induction group with
  | nil => rfl
  | cons fp fps ih =>
    have hstep : write_group_segment root contents (fp :: fps) =
        ((if rel_path root fp.dropLast ≠ [] then
            [ZipEntry.directory_entry (rel_path root fp.dropLast)]
          else []) ++
          [ZipEntry.file_entry (rel_path root fp) (copy_in_chunks 65536 (contents fp))]) ++
          write_group_segment root contents fps := by
      simp [write_group_segment]
    rw [hstep, List.filterMap_append, List.filterMap_append, ih]
    by_cases hd : rel_path root fp.dropLast ≠ []
    · simp [hd, copy_in_chunks_eq_self 65536 (by norm_num),
        copy_in_chunks_eq_self 1048576 (by norm_num)]
    · simp [hd, copy_in_chunks_eq_self 65536 (by norm_num),
        copy_in_chunks_eq_self 1048576 (by norm_num)]

/-- Claim C7: merging the segments written for the groups yields exactly
one file entry per input file, under its relative path, whose byte content
is the byte content of the source file at build time: the bytes pass
unchanged through the 64 KiB segment copy loop and the 1 MiB store mode
merge copy loop, and directory placeholder entries are dropped. -/
theorem merged_archive_preserves_source_bytes (root : FilePath')
    (contents : FilePath' → List Nat) (groups : List (List FilePath')) :
    merge_zip_segments_entries (groups.map (write_group_segment root contents)) =
      groups.flatten.map fun fp =>
        ZipEntry.file_entry (rel_path root fp) (contents fp) := by
  induction groups with
  | nil => rfl
  | cons g rest ih =>
    have hstep : merge_zip_segments_entries
        ((g :: rest).map (write_group_segment root contents)) =
        (write_group_segment root contents g).filterMap (fun e =>
          match e with
          | .directory_entry _ => none
          | .file_entry n d => some (ZipEntry.file_entry n (copy_in_chunks 1048576 d))) ++
        merge_zip_segments_entries (rest.map (write_group_segment root contents)) := by
      simp [merge_zip_segments_entries]
    rw [hstep, ih, segment_filterMap]
    simp

theorem digitChar_toNat (n : Nat) (h : n < 10) : (Nat.digitChar n).toNat = 48 + n := by
  interval_cases n <;> rfl

theorem dec_digits_foldl (n : Nat) :
    ∀ a : Nat, (dec_digits n).foldl (fun a c => a * 10 + (c.toNat - 48)) a =
      a * 10 ^ (dec_digits n).length + n := by
  induction n using dec_digits.induct with
  | case1 n h =>
    intro a
    rw [dec_digits, dif_pos h]
    simp [List.foldl, digitChar_toNat n h]
  | case2 n h ih =>
    intro a
    rw [dec_digits, dif_neg h]
    rw [List.foldl_append, ih]
    simp only [List.foldl, List.length_append, List.length_cons, List.length_nil]
    rw [digitChar_toNat (n % 10) (Nat.mod_lt _ (by norm_num))]
    have key : n / 10 * 10 + (48 + n % 10 - 48) = n := by omega
    rw [pow_succ, Nat.add_mul, Nat.mul_assoc, Nat.add_assoc, key]

theorem dec_val_dec_digits (n : Nat) : dec_val (dec_digits n) = n := by
  have := dec_digits_foldl n 0
  simpa [dec_val] using this

theorem toDigitsCore_eq_dec_digits :
    ∀ (fuel n : Nat) (acc : List Char), 0 < fuel → n < 10 ^ fuel →
      Nat.toDigitsCore 10 fuel n acc = dec_digits n ++ acc := by
  intro fuel
  induction fuel with
  | zero => intro n acc h; omega
  | succ f ih =>
    intro n acc _ hn
    rw [Nat.toDigitsCore]
    by_cases h0 : n / 10 = 0
    · have hn10 : n < 10 := by omega
      rw [if_pos h0, dec_digits, dif_pos hn10]
      have : n % 10 = n := by omega
      rw [this]
      rfl
    · have hf : 0 < f := by
        by_contra hf0
        have : f = 0 := by omega
        subst this
        simp at hn
        omega
      have hdiv : n / 10 < 10 ^ f := by
        have : n < 10 ^ f * 10 := by
          have := pow_succ 10 f
          omega
        omega
      rw [if_neg h0, ih (n / 10) (Nat.digitChar (n % 10) :: acc) hf hdiv]
      have hn10 : ¬ n < 10 := by omega
      have hrhs : dec_digits n = dec_digits (n / 10) ++ [Nat.digitChar (n % 10)] := by
        rw [dec_digits, dif_neg hn10]
      rw [hrhs]
      simp

theorem repr_data_injective (a b : Nat)
    (h : (Nat.repr a).data = (Nat.repr b).data) : a = b := by
  have hlt : ∀ n : Nat, n < 10 ^ (n + 1) := by
    intro n
    calc n < 10 ^ n := Nat.lt_pow_self (by norm_num) n
    _ ≤ 10 ^ (n + 1) := Nat.pow_le_pow_right (by norm_num) (Nat.le_succ n)
  have ha : Nat.toDigits 10 a = dec_digits a := by
    rw [Nat.toDigits, toDigitsCore_eq_dec_digits (a + 1) a [] (Nat.succ_pos a) (hlt a)]
    simp
  have hb : Nat.toDigits 10 b = dec_digits b := by
    rw [Nat.toDigits, toDigitsCore_eq_dec_digits (b + 1) b [] (Nat.succ_pos b) (hlt b)]
    simp
  have hdata : dec_digits a = dec_digits b := by
    have := h
    simp only [Nat.repr, List.asString] at this
    rwa [ha, hb] at this
  have := congrArg dec_val hdata
  rwa [dec_val_dec_digits, dec_val_dec_digits] at this

/-- Claim C8, counterexample: the random identifier naming scheme is not
collision free as such: when the random draws for two distinct groups
coincide (which nothing in the code prevents or detects), the two segment
file names are equal. -/
theorem segment_names_not_collision_free_counterexample :
    ¬ (∀ (draw : Nat → Nat) (i j : Nat), i ≠ j →
        segment_file_name (draw i) ≠ segment_file_name (draw j)) := by
  intro h
  exact h (fun _ => 0) 0 1 (by decide) rfl

/-- Claim C8, amended: two segment file names are distinct whenever the two
drawn 64 bit identifiers are distinct; collision freedom holds exactly up
to the random draws. -/
theorem segment_names_distinct_for_distinct_draws (a b : Nat)
    (h : a % 2 ^ 64 ≠ b % 2 ^ 64) :
    segment_file_name a ≠ segment_file_name b := by
  intro heq
  apply h
  have hd := congrArg String.data heq
  simp only [segment_file_name, String.data_append] at hd
  have h1 : "segment_".data ++ (Nat.repr (a % 2 ^ 64)).data =
      "segment_".data ++ (Nat.repr (b % 2 ^ 64)).data :=
    List.append_cancel_right hd
  have h2 : (Nat.repr (a % 2 ^ 64)).data = (Nat.repr (b % 2 ^ 64)).data :=
    List.append_cancel_left h1
  exact repr_data_injective _ _ h2

theorem segment_names_distinct_for_distinct_draws_witness :
    (0 % 2 ^ 64 ≠ 1 % 2 ^ 64) ∧ segment_file_name 0 ≠ segment_file_name 1 :=
  ⟨by decide, segment_names_distinct_for_distinct_draws 0 1 (by decide)⟩
